import Mathlib

/-!
Verification of the air-quality monitoring framework
(`framework_air_monitoring_project_helena.py`).

Shallow embedding: Python strings are modelled as `List Char`, Python
floats as `Rat` (the program only ever manipulates finite decimal
values), dictionaries with the fixed key set
`PM2_5, PM10, CO2, TEMP, HUM` as a structure of `Option Rat` fields,
and fallible operations (float parsing, dict lookup, file writes) as
`Except`.  The file system for the CSV log is modelled as
`Option (List Str)`: `none` for an absent file, otherwise its lines.
-/

abbrev Str := List Char

/-- Shorthand turning a Lean string literal into our `List Char` model. -/
def lit (s : String) : Str := s.toList

/-- ASCII whitespace, the characters removed by Python str.strip(). -/
def isPySpace (c : Char) : Bool :=
  c = ' ' ∨ c = '\t' ∨ c = '\n' ∨ c = '\r' ∨ c = '\x0b' ∨ c = '\x0c'

/-- Python `s.strip()`: remove leading and trailing whitespace. -/
def strip (s : Str) : Str :=
  ((s.dropWhile isPySpace).reverse.dropWhile isPySpace).reverse

/-- Python `s.split(c)` for a one-character separator `c`:
`"" ↦ [""]`, `";" ↦ ["",""]`, `"a;b" ↦ ["a","b"]`. -/
def splitChar (c : Char) : Str → List Str
  | [] => [[]]
  | x :: xs =>
    if x = c then [] :: splitChar c xs
    else
      match splitChar c xs with
      | [] => [[x]]
      | p :: ps => (x :: p) :: ps

/-- Numeric value of a digit string, most significant digit first. -/
def digitsVal (ds : Str) : Nat :=
  ds.foldl (fun a c => a * 10 + (c.toNat - 48)) 0

def isDigit (c : Char) : Bool := '0' ≤ c ∧ c ≤ '9'

/-- The optional exponent suffix of a Python float literal:
empty, or `e`/`E` followed by an optionally signed digit string. -/
def pyExp (s : Str) : Option Int :=
  match s with
  | [] => some 0
  | e :: t =>
    if e = 'e' ∨ e = 'E' then
      let (sgn, t1) : Int × Str :=
        match t with
        | '+' :: u => (1, u)
        | '-' :: u => (-1, u)
        | u => (1, u)
      if t1 ≠ [] ∧ t1.all isDigit then some (sgn * digitsVal t1) else none
    else none

/-- Python `float(s)` on (already stripped) finite decimal literals:
optional sign, then digits with an optional decimal point (at least one
digit overall), then an optional exponent.  Returns `none` exactly when
CPython would raise `ValueError` on such a string. -/
def pyFloat (s : Str) : Option Rat :=
  let (sgn, s1) : Rat × Str :=
    match s with
    | '+' :: t => (1, t)
    | '-' :: t => (-1, t)
    | t => (1, t)
  let ip := s1.takeWhile isDigit
  let rest := s1.drop ip.length
  let core : Option (Rat × Str) :=
    match rest with
    | '.' :: t =>
      let fp := t.takeWhile isDigit
      let rest2 := t.drop fp.length
      if ip = [] ∧ fp = [] then none
      else some ((digitsVal ip : Rat) + (digitsVal fp : Rat) / ((10 : Rat) ^ fp.length), rest2)
    | r => if ip = [] then none else some ((digitsVal ip : Rat), r)
  match core with
  | none => none
  | some (m, r) =>
    match pyExp r with
    | none => none
    | some e => some (sgn * m * (10 : Rat) ^ e)

/-- The five canonical measurement keys. -/
inductive Key | PM2_5 | PM10 | CO2 | TEMP | HUM
deriving DecidableEq, Repr

/-- A Python dict over the five canonical keys: each key either absent
(`none`) or mapped to a float. -/
structure PartialRecord where
  pm2_5 : Option Rat
  pm10 : Option Rat
  co2 : Option Rat
  temp : Option Rat
  hum : Option Rat
deriving DecidableEq, Repr

def emptyRecord : PartialRecord := ⟨none, none, none, none, none⟩

def getKey (d : PartialRecord) : Key → Option Rat
  | .PM2_5 => d.pm2_5
  | .PM10 => d.pm10
  | .CO2 => d.co2
  | .TEMP => d.temp
  | .HUM => d.hum

def setKey (d : PartialRecord) : Key → Rat → PartialRecord
  | .PM2_5, v => { d with pm2_5 := some v }
  | .PM10, v => { d with pm10 := some v }
  | .CO2, v => { d with co2 := some v }
  | .TEMP, v => { d with temp := some v }
  | .HUM, v => { d with hum := some v }

/-- Python dict truthiness `if data:`: at least one key present. -/
def recNonempty (d : PartialRecord) : Bool :=
  d.pm2_5.isSome || d.pm10.isSome || d.co2.isSome || d.temp.isSome || d.hum.isSome

/-- All five keys present. -/
def recComplete (d : PartialRecord) : Bool :=
  d.pm2_5.isSome && d.pm10.isSome && d.co2.isSome && d.temp.isSome && d.hum.isSome

/-- The key-aliasing chain of `parse_line` (lines 101-110 of the
source): which canonical key, if any, an upper-cased stripped key text
is stored under. -/
def canonKey (key : Str) : Option Key :=
  if key = lit "PM25" ∨ key = lit "PM2.5" ∨ key = lit "PM2_5" then some .PM2_5
  else if key = lit "PM10" then some .PM10
  else if key = lit "CO2" then some .CO2
  else if key = lit "TEMP" ∨ key = lit "TEMPC" ∨ key = lit "T" then some .TEMP
  else if key = lit "HUM" ∨ key = lit "RH" then some .HUM
  else none

/-- One iteration of the `for part in ...` loop of `parse_line`:
skip empty parts and parts without a colon; otherwise split at the
first colon, parse the value (`float` may raise, modelled as
`.error ()`), and store under the canonical key, ignoring unknown keys. -/
def applyPart (d : PartialRecord) (part : Str) : Except Unit PartialRecord :=
  if part = [] ∨ ':' ∉ part then .ok d
  else
    let k := part.takeWhile (fun c => c ≠ ':')
    let v := (part.dropWhile (fun c => c ≠ ':')).drop 1
    match pyFloat (strip v) with
    | none => .error ()
    | some x =>
      match canonKey ((strip k).map Char.toUpper) with
      | some K => .ok (setKey d K x)
      | none => .ok d

def parseParts (d : PartialRecord) : List Str → Except Unit PartialRecord
  | [] => .ok d
  | p :: ps =>
    match applyPart d p with
    | .error e => .error e
    | .ok d2 => parseParts d2 ps

/-- `parse_line` (source lines 92-111): strip the line, split on `;`,
process each part; a malformed numeric value fails the whole parse. -/
def parse_line (line : Str) : Except Unit PartialRecord :=
  parseParts emptyRecord (splitChar ';' (strip line))

deriving instance DecidableEq for Except

/-! ### Thresholds and warnings (source lines 70-77, 135-148) -/

def PM25_MAX : Rat := 25
def PM10_MAX : Rat := 50
def CO2_MAX : Rat := 1000
def TEMP_MIN : Rat := -10
def TEMP_MAX : Rat := 45
def HUM_MIN : Rat := 20
def HUM_MAX : Rat := 70

/-- Runtime errors of the embedded program: `KeyError` from a dict
lookup, `ValueError` from `float`, `OSError` from file I/O. -/
inductive RunError | keyError | valueError | ioError
deriving DecidableEq, Repr

/-- Python `data[k]`: the value, or a `KeyError` when absent. -/
def getItem (o : Option Rat) : Except RunError Rat :=
  match o with
  | some v => .ok v
  | none => .error .keyError

def msgPM25 : String := "Warning: PM2.5 exceeds guideline level."
def msgPM10 : String := "Warning: PM10 exceeds guideline level."
def msgCO2 : String := "Warning: CO₂ is high (ventilation recommended)."
def msgTEMP : String := "Warning: Temperature outside plausible range."
def msgHUM : String := "Warning: Humidity outside comfort range."

/-- `evaluate_thresholds` (source lines 135-148): look each key up in
order (a missing key raises `KeyError` at that point) and append one
fixed warning message per violated rule, in the fixed source order. -/
def evaluate_thresholds (data : PartialRecord) : Except RunError (List String) := do
  let pm25 ← getItem data.pm2_5
  let w1 := if pm25 > PM25_MAX then [msgPM25] else []
  let pm10 ← getItem data.pm10
  let w2 := if pm10 > PM10_MAX then [msgPM10] else []
  let co2 ← getItem data.co2
  let w3 := if co2 > CO2_MAX then [msgCO2] else []
  let t ← getItem data.temp
  let w4 := if ¬ (TEMP_MIN ≤ t ∧ t ≤ TEMP_MAX) then [msgTEMP] else []
  let h ← getItem data.hum
  let w5 := if ¬ (HUM_MIN ≤ h ∧ h ≤ HUM_MAX) then [msgHUM] else []
  return w1 ++ w2 ++ w3 ++ w4 ++ w5

/-! ### CSV persistence (source lines 80-90, 150-157)

The log file is `Option (List Str)`: `none` when absent, otherwise the
list of its lines. -/

/-- The header row written by `ensure_csv_header`
(`csv.writer.writerow` of the six column names). -/
def headerRow : Str := lit "timestamp,PM2_5,PM10,CO2,TEMP_C,HUM_%"

/-- `ensure_csv_header` (source lines 80-90): read the first line; if it
starts with `timestamp`, return; otherwise (also when the file is
absent, or exists but is empty so that `readline` returns `""`) open
the file in mode `"w"` — truncating it — and write the header row. -/
def ensure_csv_header (fs : Option (List Str)) : Option (List Str) :=
  match fs with
  | some lines =>
    if (lit "timestamp").isPrefixOf (lines.headD []) then some lines
    else some [headerRow]
  | none => some [headerRow]

/-- One data row of the log: the timestamp and the five measurements,
in the column order of `log_csv` (source lines 154-157). -/
structure Row where
  timestamp : Str
  pm2_5 : Rat
  pm10 : Rat
  co2 : Rat
  temp : Rat
  hum : Rat
deriving DecidableEq, Repr

/-- `log_csv` (source lines 150-157) appends one row.  Opening or
writing the file may fail in the OS; the tick's `writeOk` flag says
whether it does, and on failure the `OSError` propagates (`.error`) and
the file is unchanged. -/
def log_csv (writeOk : Bool) (fileRows : List Row) (row : Row) : Except RunError (List Row) :=
  if writeOk then .ok (fileRows ++ [row]) else .error .ioError

/-! ### The main loop (source lines 168-199), serial branch.

Each tick of `while True` is driven by one `TickIn`: the timestamp
`datetime.now()` would give, the decoded stripped line `ser.readline`
yields, and whether the append to the CSV file succeeds.  The loop body
only catches `KeyboardInterrupt`, so any `RunError` escapes the loop
and ends the run. -/

structure TickIn where
  ts : Str
  raw : Str
  writeOk : Bool

def rowToRecord (r : Row) : PartialRecord :=
  ⟨some r.pm2_5, some r.pm10, some r.co2, some r.temp, some r.hum⟩

/-- `row = {...}` (source lines 178-185): five dict lookups, each of
which raises `KeyError` when the key is missing. -/
def buildRow (ts : Str) (data : PartialRecord) : Except RunError Row := do
  let a ← getItem data.pm2_5
  let b ← getItem data.pm10
  let c ← getItem data.co2
  let d ← getItem data.temp
  let e ← getItem data.hum
  return ⟨ts, a, b, c, d, e⟩

/-- One iteration of the serial-mode loop body (source lines 170-197):
parse the raw line (`ValueError` escapes), skip the tick when the
record is empty, otherwise build the row (`KeyError` escapes), print,
evaluate thresholds and append to the CSV file (`OSError` escapes).
Returns the updated file rows and the lines displayed this tick. -/
def serialTick (inp : TickIn) (fileRows : List Row) : Except RunError (List Row × List String) := do
  let data ←
    if inp.raw ≠ [] then
      match parse_line inp.raw with
      | .ok d => Except.ok d
      | .error _ => Except.error RunError.valueError
    else Except.ok emptyRecord
  if recNonempty data then do
    let row ← buildRow inp.ts data
    let shown : List String :=
      ["------------------------------", String.mk row.timestamp]
    let warnings ← evaluate_thresholds (rowToRecord row)
    let newRows ← log_csv inp.writeOk fileRows row
    return (newRows, shown ++ warnings)
  else
    return (fileRows, [])

/-- The serial-mode loop over a finite schedule of ticks: any error in
a tick propagates and no later tick runs. -/
def runSerial (inps : List TickIn) (fileRows : List Row) : Except RunError (List Row) :=
  match inps with
  | [] => .ok fileRows
  | i :: is =>
    match serialTick i fileRows with
    | .error e => .error e
    | .ok (rows2, _) => runSerial is rows2

/-! ### Simulation mode (source lines 113-121)

`random.uniform(a, b)` is `a + (b - a) * u` for a draw `u` of
`random.random()` with `0 ≤ u ≤ 1`; Python 3 `round(x, n)` rounds to
the nearest multiple of `10^(-n)` with ties to the even multiple. -/

def uniform (a b u : Rat) : Rat := a + (b - a) * u

/-- Round to the nearest integer, ties to even (Python `round`). -/
def roundHalfEven (x : Rat) : Int :=
  if x - ⌊x⌋ < 1 / 2 then ⌊x⌋
  else if 1 / 2 < x - ⌊x⌋ then ⌊x⌋ + 1
  else if ⌊x⌋ % 2 = 0 then ⌊x⌋ else ⌊x⌋ + 1

/-- Python `round(x, 1)`. -/
def round1 (x : Rat) : Rat := (roundHalfEven (10 * x) : Rat) / 10

/-- Python `round(x, 0)`: still a float, but integer-valued. -/
def round0 (x : Rat) : Rat := (roundHalfEven x : Rat)

/-- `simulate_reading` (source lines 113-121), as a function of the
five independent uniform draws `u1 .. u5 ∈ [0, 1]`. -/
def simulate_reading (u1 u2 u3 u4 u5 : Rat) : PartialRecord :=
  { pm2_5 := some (round1 (uniform 5 80 u1))
    pm10 := some (round1 (uniform 10 120 u2))
    co2 := some (round0 (uniform 400 2000 u3))
    temp := some (round1 (uniform 0 35 u4))
    hum := some (round1 (uniform 25 75 u5)) }

/-! ### Serial-line decoding (source line 171)

`ser.readline()` yields raw bytes; `.decode(errors="ignore")` decodes
them as UTF-8, dropping bytes that do not decode.  Decoded text is a
list of Unicode code points. -/

/-- UTF-8 continuation byte. -/
def contByte (b : Nat) : Bool := 0x80 ≤ b ∧ b ≤ 0xBF

/-- Decode one UTF-8 scalar value from the front of the byte list:
the code point and the number of bytes consumed, or `none` when the
prefix is not a valid encoding (overlong forms, surrogates and
out-of-range sequences rejected). -/
def decodeOne : List Nat → Option (Nat × Nat)
  | [] => none
  | b :: rest =>
    if b ≤ 0x7F then some (b, 1)
    else if 0xC2 ≤ b ∧ b ≤ 0xDF then
      match rest with
      | b2 :: _ => if contByte b2 then some ((b - 0xC0) * 64 + (b2 - 0x80), 2) else none
      | [] => none
    else if 0xE0 ≤ b ∧ b ≤ 0xEF then
      match rest with
      | b2 :: b3 :: _ =>
        let cp := (b - 0xE0) * 4096 + (b2 - 0x80) * 64 + (b3 - 0x80)
        if contByte b2 ∧ contByte b3 ∧ 0x800 ≤ cp ∧ ¬ (0xD800 ≤ cp ∧ cp ≤ 0xDFFF) then
          some (cp, 3)
        else none
      | _ => none
    else if 0xF0 ≤ b ∧ b ≤ 0xF4 then
      match rest with
      | b2 :: b3 :: b4 :: _ =>
        let cp := (b - 0xF0) * 262144 + (b2 - 0x80) * 4096 + (b3 - 0x80) * 64 + (b4 - 0x80)
        if contByte b2 ∧ contByte b3 ∧ contByte b4 ∧ 0x10000 ≤ cp ∧ cp ≤ 0x10FFFF then
          some (cp, 4)
        else none
      | _ => none
    else none

/-- The error handler of `bytes.decode`: `strict` raises on the first
invalid byte; `ignore` — the one the source passes — drops it;
`replace` would substitute U+FFFD.  `replace` is included to state the
spec's wording for comparison and is not used by the program. -/
inductive ErrMode | strict | ignore | replace
deriving DecidableEq, Repr

/-- Fuelled decoding loop: on an invalid prefix consume one byte and
apply the error handler. -/
def pyDecodeFuel (mode : ErrMode) : Nat → List Nat → Except Unit (List Nat)
  | _, [] => .ok []
  | 0, _ :: _ => .error ()
  | fuel + 1, bs =>
    match decodeOne bs with
    | some (c, n) =>
      match pyDecodeFuel mode fuel (bs.drop n) with
      | .ok cs => .ok (c :: cs)
      | .error e => .error e
    | none =>
      match mode with
      | .strict => .error ()
      | .ignore => pyDecodeFuel mode fuel (bs.drop 1)
      | .replace =>
        match pyDecodeFuel mode fuel (bs.drop 1) with
        | .ok cs => .ok (0xFFFD :: cs)
        | .error e => .error e

/-- `bytes.decode` with the given error handler. -/
def pyDecode (mode : ErrMode) (bs : List Nat) : Except Unit (List Nat) :=
  pyDecodeFuel mode bs.length bs

/-- The decode step of the main loop (source line 171):
`.decode(errors="ignore")`. -/
def mainDecode (bs : List Nat) : Except Unit (List Nat) := pyDecode .ignore bs

/-- Modelled from the spec: the decode step as the spec words it,
"invalid bytes replaced rather than failing" (`errors="replace"`). -/
def specDecodeReplace (bs : List Nat) : Except Unit (List Nat) := pyDecode .replace bs

/-- The effect of one part: `none` leaves the record alone, `some (K, v)`
stores `v` under canonical key `K`. -/
def applyAct (d : PartialRecord) : Option (Key × Rat) → PartialRecord
  | none => d
  | some (K, v) => setKey d K v

/-- The shapes of a part that `parse_line` handles without a
`ValueError`, together with the effect each has: an empty part or a
part without a colon is skipped; a part `k:v` whose upper-cased
stripped key is unknown is ignored (its value must still parse); a part
`k:v` with a recognized key alias stores the parsed value. -/
inductive PartForm : Str → Option (Key × Rat) → Prop where
  | empty : PartForm [] none
  | nocolon (p : Str) (h : ':' ∉ p) : PartForm p none
  | unknown (k v : Str) (x : Rat) (hk : ':' ∉ k)
      (hu : canonKey ((strip k).map Char.toUpper) = none)
      (hv : pyFloat (strip v) = some x) : PartForm (k ++ ':' :: v) none
  | keyed (k v : Str) (K : Key) (x : Rat) (hk : ':' ∉ k)
      (hK : canonKey ((strip k).map Char.toUpper) = some K)
      (hv : pyFloat (strip v) = some x) : PartForm (k ++ ':' :: v) (some (K, x))

/-- The values stored under key `K` by an action list, in order. -/
def keyVals (acts : List (Option (Key × Rat))) (K : Key) : List Rat :=
  acts.filterMap fun a =>
    match a with
    | some (K', v) => if K' = K then some v else none
    | none => none

/-- The five threshold rules, in the order the source checks them. -/
inductive Rule | pm25 | pm10 | co2 | temp | hum
deriving DecidableEq, Repr

def ruleOrder : List Rule := [.pm25, .pm10, .co2, .temp, .hum]

/-- Whether a rule is violated by the five measurement values. -/
def ruleViolated (a b c d e : Rat) : Rule → Bool
  | .pm25 => decide (a > PM25_MAX)
  | .pm10 => decide (b > PM10_MAX)
  | .co2 => decide (c > CO2_MAX)
  | .temp => decide (¬ (TEMP_MIN ≤ d ∧ d ≤ TEMP_MAX))
  | .hum => decide (¬ (HUM_MIN ≤ e ∧ e ≤ HUM_MAX))

def ruleMsg : Rule → String
  | .pm25 => msgPM25
  | .pm10 => msgPM10
  | .co2 => msgCO2
  | .temp => msgTEMP
  | .hum => msgHUM

/-- A field value present and inside `[lo, hi]`, expressible with
denominator `den` (1 decimal place for `den = 10`, integer-valued for
`den = 1`). -/
def fieldIn (o : Option Rat) (lo hi den : Rat) : Prop :=
  ∃ v, o = some v ∧ lo ≤ v ∧ v ≤ hi ∧ ∃ k : Int, v = (k : Rat) / den

/-! ### Joining and splitting on a separator -/

/-- Join parts with a one-character separator (left inverse of
`splitChar` when no part contains the separator). -/
def joinSep (c : Char) : List Str → Str
  | [] => []
  | [p] => p
  | p :: ps => p ++ c :: joinSep c ps

theorem splitChar_ne_nil (c : Char) (s : Str) : splitChar c s ≠ [] := by
  cases s with
  | nil => simp [splitChar]
  | cons x xs =>
    simp only [splitChar]
    split
    · simp
    · split <;> simp

theorem splitChar_of_not_mem (c : Char) (p : Str) (h : c ∉ p) : splitChar c p = [p] := by
  induction p with
  | nil => rfl
  | cons x xs ih =>
    simp only [List.mem_cons, not_or] at h
    simp only [splitChar, if_neg (Ne.symm h.1), ih h.2]

theorem splitChar_append_sep (c : Char) (p s : Str) (h : c ∉ p) :
    splitChar c (p ++ c :: s) = p :: splitChar c s := by
  induction p with
  | nil => simp [splitChar]
  | cons x xs ih =>
    simp only [List.mem_cons, not_or] at h
    simp only [List.cons_append, splitChar, if_neg (Ne.symm h.1), List.append_eq, ih h.2]

theorem splitChar_joinSep (c : Char) (parts : List Str) (hne : parts ≠ [])
    (h : ∀ p ∈ parts, c ∉ p) : splitChar c (joinSep c parts) = parts := by
  induction parts with
  | nil => exact absurd rfl hne
  | cons p ps ih =>
    cases ps with
    | nil => exact splitChar_of_not_mem c p (h p (by simp))
    | cons q qs =>
      have hp : c ∉ p := h p (by simp)
      have hrest : ∀ r ∈ q :: qs, c ∉ r := fun r hr => h r (List.mem_cons_of_mem p hr)
      simp only [joinSep, splitChar_append_sep c p _ hp, ih (by simp) hrest]

theorem takeWhile_append_stop (k v : Str) (c : Char) (h : c ∉ k) :
    (k ++ c :: v).takeWhile (fun x => x ≠ c) = k := by
  induction k with
  | nil => simp [List.takeWhile]
  | cons x xs ih =>
    simp only [List.mem_cons, not_or] at h
    have hd : (decide ¬x = c) = true := decide_eq_true (Ne.symm h.1)
    simp only [List.cons_append, List.takeWhile, ne_eq, hd, List.append_eq]
    rw [ih h.2]

theorem dropWhile_append_stop (k v : Str) (c : Char) (h : c ∉ k) :
    (k ++ c :: v).dropWhile (fun x => x ≠ c) = c :: v := by
  induction k with
  | nil => simp [List.dropWhile]
  | cons x xs ih =>
    simp only [List.mem_cons, not_or] at h
    have hd : (decide ¬x = c) = true := decide_eq_true (Ne.symm h.1)
    simp only [List.cons_append, List.dropWhile, ne_eq, hd, List.append_eq]
    rw [ih h.2]

/-! ### How one part acts on the record -/

theorem applyPart_action (p : Str) (act : Option (Key × Rat)) (h : PartForm p act)
    (d : PartialRecord) : applyPart d p = .ok (applyAct d act) := by
  cases h with
  | empty => rfl
  | nocolon p h =>
    unfold applyPart
    rw [if_pos (Or.inr h)]
    rfl
  | unknown k v x hk hu hv =>
    unfold applyPart
    rw [if_neg (by simp)]
    simp only [takeWhile_append_stop k v ':' hk, dropWhile_append_stop k v ':' hk,
      List.drop_succ_cons, List.drop_zero]
    simp [hv, hu, applyAct]
  | keyed k v K x hk hK hv =>
    unfold applyPart
    rw [if_neg (by simp)]
    simp only [takeWhile_append_stop k v ':' hk, dropWhile_append_stop k v ':' hk,
      List.drop_succ_cons, List.drop_zero]
    simp [hv, hK, applyAct]

theorem parseParts_forall (parts : List Str) (acts : List (Option (Key × Rat)))
    (h : List.Forall₂ PartForm parts acts) (d : PartialRecord) :
    parseParts d parts = .ok (acts.foldl applyAct d) := by
  induction h generalizing d with
  | nil => rfl
  | cons hpa _ ih =>
    simp only [parseParts, applyPart_action _ _ hpa d, List.foldl_cons]
    exact ih _

theorem getKey_setKey_same (d : PartialRecord) (K : Key) (v : Rat) :
    getKey (setKey d K v) K = some v := by
  cases K <;> rfl

theorem getKey_setKey_other (d : PartialRecord) (K K' : Key) (v : Rat) (h : K' ≠ K) :
    getKey (setKey d K' v) K = getKey d K := by
  cases K <;> cases K' <;> first | rfl | exact absurd rfl h

theorem getKey_foldl (acts : List (Option (Key × Rat))) (d : PartialRecord) (K : Key) :
    getKey (acts.foldl applyAct d) K =
      (keyVals acts K).foldl (fun _ v => some v) (getKey d K) := by
  induction acts generalizing d with
  | nil => rfl
  | cons a rest ih =>
    cases a with
    | none => simpa [keyVals, applyAct] using ih d
    | some kv =>
      obtain ⟨K', v⟩ := kv
      by_cases hK : K' = K
      · subst hK
        simp only [List.foldl_cons, applyAct, keyVals, List.filterMap_cons, if_pos rfl]
        rw [ih (setKey d K' v), getKey_setKey_same]
        simp [keyVals]
      · simp only [List.foldl_cons, applyAct, keyVals, List.filterMap_cons, if_neg hK]
        rw [ih (setKey d K' v), getKey_setKey_other d K K' v hK]
        simp [keyVals]

theorem foldl_last_single (v : Rat) (o : Option Rat) :
    [v].foldl (fun _ w => some w) o = some v := rfl

/-! ### Shared evaluation lemmas -/

/-- On a record with all five keys, `evaluate_thresholds` reduces to
the five independent checks in source order. -/
theorem evaluate_thresholds_complete (a b c d e : Rat) :
    evaluate_thresholds ⟨some a, some b, some c, some d, some e⟩ =
      .ok ((if a > PM25_MAX then [msgPM25] else []) ++
        (if b > PM10_MAX then [msgPM10] else []) ++
        (if c > CO2_MAX then [msgCO2] else []) ++
        (if ¬ (TEMP_MIN ≤ d ∧ d ≤ TEMP_MAX) then [msgTEMP] else []) ++
        (if ¬ (HUM_MIN ≤ e ∧ e ≤ HUM_MAX) then [msgHUM] else [])) := rfl

theorem PartialRecord_fields_eq (r : PartialRecord) (o1 o2 o3 o4 o5 : Option Rat)
    (h1 : r.pm2_5 = o1) (h2 : r.pm10 = o2) (h3 : r.co2 = o3) (h4 : r.temp = o4)
    (h5 : r.hum = o5) : r = ⟨o1, o2, o3, o4, o5⟩ := by
  cases r
  simp_all

section ClaimTheorems

attribute [local semireducible] Rat.mul Rat.inv Rat.add Rat.sub Rat.ofScientific

/-- C3: on a measurement with all five keys, `evaluate_thresholds`
returns exactly the messages of the violated rules, each rule checked
independently, always in the fixed order PM2.5, PM10, CO2, TEMP, HUM;
in particular `{PM2_5:30, PM10:10, CO2:500, TEMP:20, HUM:50}` yields
exactly the PM2.5 warning, and a record violating all five rules
yields all five warnings in that order. -/
theorem evaluate_thresholds_order_independent :
    (∀ a b c d e : Rat,
      evaluate_thresholds ⟨some a, some b, some c, some d, some e⟩ =
        .ok ((ruleOrder.filter (ruleViolated a b c d e)).map ruleMsg)) ∧
    evaluate_thresholds ⟨some 30, some 10, some 500, some 20, some 50⟩ = .ok [msgPM25] ∧
    evaluate_thresholds ⟨some 30, some 60, some 1500, some 50, some 80⟩ =
      .ok [msgPM25, msgPM10, msgCO2, msgTEMP, msgHUM] := by
  refine ⟨fun a b c d e => ?_, by decide, by decide⟩
  rw [evaluate_thresholds_complete]
  by_cases h1 : a > PM25_MAX <;> by_cases h2 : b > PM10_MAX <;> by_cases h3 : c > CO2_MAX <;>
    by_cases h4 : TEMP_MIN ≤ d ∧ d ≤ TEMP_MAX <;> by_cases h5 : HUM_MIN ≤ e ∧ e ≤ HUM_MAX <;>
      simp [ruleOrder, ruleViolated, ruleMsg, List.filter_cons, h1, h2, h3, h4, h5]

/-- C10: `evaluate_thresholds` succeeds exactly on records containing
all five keys; on a record missing any key the dict lookup fails with
`KeyError`. -/
theorem evaluate_thresholds_requires_all_keys :
    ∀ r : PartialRecord,
      (recComplete r = true → ∃ ws, evaluate_thresholds r = .ok ws) ∧
      (recComplete r = false → evaluate_thresholds r = .error .keyError) := by
  intro r
  obtain ⟨o1, o2, o3, o4, o5⟩ := r
  cases o1 <;> cases o2 <;> cases o3 <;> cases o4 <;> cases o5 <;>
    exact ⟨fun hc => by first | exact ⟨_, rfl⟩ | exact Bool.noConfusion hc,
      fun hn => by first | exact Bool.noConfusion hn | rfl⟩

theorem evaluate_thresholds_requires_all_keys_witness :
    (∃ ws, evaluate_thresholds ⟨some 1, some 2, some 3, some 4, some 5⟩ = .ok ws) ∧
    evaluate_thresholds ⟨some 1, some 2, some 3, some 4, none⟩ = .error .keyError :=
  ⟨(evaluate_thresholds_requires_all_keys ⟨some 1, some 2, some 3, some 4, some 5⟩).1 rfl,
    (evaluate_thresholds_requires_all_keys ⟨some 1, some 2, some 3, some 4, none⟩).2 rfl⟩

/-- C5: `ensure_csv_header` is idempotent; it is a no-op when the first
line of the existing file already starts with the header token
`timestamp`, and it writes exactly the single header row when the file
is absent or its first line does not start with that token. -/
theorem ensure_csv_header_some (lines : List Str) :
    ensure_csv_header (some lines) =
      if (lit "timestamp").isPrefixOf (lines.headD []) = true then some lines
      else some [headerRow] := rfl

theorem ensure_csv_header_idempotent :
    ∀ fs : Option (List Str),
      ensure_csv_header (ensure_csv_header fs) = ensure_csv_header fs ∧
      (∀ lines, fs = some lines →
        (lit "timestamp").isPrefixOf (lines.headD []) = true → ensure_csv_header fs = fs) ∧
      ((fs = none ∨
          ∃ lines, fs = some lines ∧ (lit "timestamp").isPrefixOf (lines.headD []) = false) →
        ensure_csv_header fs = some [headerRow]) := by
  have hhdr : ensure_csv_header (some [headerRow]) = some [headerRow] := by
    rw [ensure_csv_header_some, if_pos (by decide)]
  intro fs
  cases fs with
  | none =>
    exact ⟨hhdr, fun lines h => Option.noConfusion h, fun _ => rfl⟩
  | some lines =>
    by_cases hp : (lit "timestamp").isPrefixOf (lines.headD []) = true
    · have hens : ensure_csv_header (some lines) = some lines := by
        rw [ensure_csv_header_some, if_pos hp]
      refine ⟨by rw [hens, hens], fun l hl _ => hens, fun hbad => ?_⟩
      rcases hbad with h | ⟨l, hl, hfalse⟩
      · exact Option.noConfusion h
      · obtain rfl : lines = l := Option.some.inj hl
        rw [hp] at hfalse
        exact Bool.noConfusion hfalse
    · have hens : ensure_csv_header (some lines) = some [headerRow] := by
        rw [ensure_csv_header_some, if_neg hp]
      refine ⟨by rw [hens, hhdr], fun l hl hpref => ?_, fun _ => hens⟩
      obtain rfl : lines = l := Option.some.inj hl
      exact absurd hpref hp

theorem ensure_csv_header_idempotent_witness :
    ensure_csv_header (some [headerRow, lit "1,2,3,4,5,6"]) = some [headerRow, lit "1,2,3,4,5,6"] ∧
    ensure_csv_header none = some [headerRow] ∧
    ensure_csv_header (some [lit "old junk"]) = some [headerRow] :=
  ⟨(ensure_csv_header_idempotent (some [headerRow, lit "1,2,3,4,5,6"])).2.1 _ rfl (by decide),
    (ensure_csv_header_idempotent none).2.2 (Or.inl rfl),
    (ensure_csv_header_idempotent (some [lit "old junk"])).2.2
      (Or.inr ⟨[lit "old junk"], rfl, by decide⟩)⟩

/-- C9: when the log file exists but its first line does not start with
the header token `timestamp`, `ensure_csv_header` truncates the file:
the result holds only the header row, and any previous data rows are
erased. -/
theorem ensure_csv_header_truncates_bad_header :
    ∀ lines : List Str, (lit "timestamp").isPrefixOf (lines.headD []) = false →
      ensure_csv_header (some lines) = some [headerRow] := by
  intro lines h
  have hne : ¬ (lit "timestamp").isPrefixOf (lines.headD []) = true := by
    rw [h]
    exact Bool.false_ne_true
  rw [ensure_csv_header_some, if_neg hne]

theorem ensure_csv_header_truncates_bad_header_witness :
    ensure_csv_header (some [lit "PM2_5,PM10", lit "17.0,33.1"]) = some [headerRow] :=
  ensure_csv_header_truncates_bad_header [lit "PM2_5,PM10", lit "17.0,33.1"] (by decide)

/-- C4: for every valid line made of parts joined by `;` — one part per
canonical key, using any alias and any letter case for the key, with a
decimal value, in any order, possibly interleaved with empty parts,
parts without a colon, and parts with unknown keys — `parse_line`
returns exactly the five canonical keys bound to the parsed values. -/
theorem parse_line_valid_lines (parts : List Str) (acts : List (Option (Key × Rat)))
    (a b c d e : Rat)
    (hform : List.Forall₂ PartForm parts acts)
    (hne : parts ≠ [])
    (hsep : ∀ p ∈ parts, ';' ∉ p)
    (hstrip : strip (joinSep ';' parts) = joinSep ';' parts)
    (ha : keyVals acts .PM2_5 = [a]) (hb : keyVals acts .PM10 = [b])
    (hc : keyVals acts .CO2 = [c]) (hd : keyVals acts .TEMP = [d])
    (he : keyVals acts .HUM = [e]) :
    parse_line (joinSep ';' parts) = .ok ⟨some a, some b, some c, some d, some e⟩ := by
  unfold parse_line
  rw [hstrip, splitChar_joinSep ';' parts hne hsep,
    parseParts_forall parts acts hform emptyRecord]
  have hfold : acts.foldl applyAct emptyRecord = ⟨some a, some b, some c, some d, some e⟩ := by
    refine PartialRecord_fields_eq _ _ _ _ _ _ ?_ ?_ ?_ ?_ ?_
    · have h := getKey_foldl acts emptyRecord Key.PM2_5
      rw [ha] at h
      exact h
    · have h := getKey_foldl acts emptyRecord Key.PM10
      rw [hb] at h
      exact h
    · have h := getKey_foldl acts emptyRecord Key.CO2
      rw [hc] at h
      exact h
    · have h := getKey_foldl acts emptyRecord Key.TEMP
      rw [hd] at h
      exact h
    · have h := getKey_foldl acts emptyRecord Key.HUM
      rw [he] at h
      exact h
  rw [hfold]

theorem parse_line_valid_lines_witness :
    parse_line (joinSep ';' [lit "pm2.5" ++ ':' :: lit " 30", [], lit "junk",
        lit "FOO" ++ ':' :: lit "1", lit "RH" ++ ':' :: lit "50",
        lit " t " ++ ':' :: lit "20", lit "co2" ++ ':' :: lit "500",
        lit "PM10" ++ ':' :: lit "20.5"]) =
      .ok ⟨some 30, some (41 / 2), some 500, some 20, some 50⟩ :=
  parse_line_valid_lines _ _ 30 (41 / 2) 500 20 50
    (.cons (.keyed (lit "pm2.5") (lit " 30") .PM2_5 30 (by decide) (by decide) (by decide))
      (.cons .empty
        (.cons (.nocolon (lit "junk") (by decide))
          (.cons (.unknown (lit "FOO") (lit "1") 1 (by decide) (by decide) (by decide))
            (.cons (.keyed (lit "RH") (lit "50") .HUM 50 (by decide) (by decide) (by decide))
              (.cons (.keyed (lit " t ") (lit "20") .TEMP 20 (by decide) (by decide) (by decide))
                (.cons (.keyed (lit "co2") (lit "500") .CO2 500 (by decide) (by decide) (by decide))
                  (.cons
                    (.keyed (lit "PM10") (lit "20.5") .PM10 (41 / 2) (by decide) (by decide)
                      (by decide))
                    .nil))))))))
    (by decide) (by decide) (by decide) (by decide) (by decide) (by decide) (by decide) (by decide)

end ClaimTheorems

/-! ### Rounding and range lemmas for simulation mode -/

theorem roundHalfEven_bounds (x : Rat) :
    ⌊x⌋ ≤ roundHalfEven x ∧ roundHalfEven x ≤ ⌊x⌋ + 1 := by
  unfold roundHalfEven
  split_ifs <;> omega

theorem le_roundHalfEven (n : Int) (x : Rat) (h : (n : Rat) ≤ x) : n ≤ roundHalfEven x := by
  have h1 := (roundHalfEven_bounds x).1
  have h2 : n ≤ ⌊x⌋ := Int.le_floor.mpr h
  omega

theorem roundHalfEven_le (n : Int) (x : Rat) (h : x ≤ (n : Rat)) : roundHalfEven x ≤ n := by
  have hfl : ⌊x⌋ ≤ n := by
    have := Int.floor_le_floor h
    rwa [Int.floor_intCast] at this
  by_cases heq : ⌊x⌋ = n
  · have hx : x = (n : Rat) := le_antisymm h (by rw [← heq]; exact Int.floor_le x)
    subst hx
    unfold roundHalfEven
    simp only [Int.floor_intCast, sub_self]
    rw [if_pos (by norm_num)]
  · have h2 := (roundHalfEven_bounds x).2
    omega

theorem uniform_mem (a b u : Rat) (hab : a ≤ b) (h0 : 0 ≤ u) (h1 : u ≤ 1) :
    a ≤ uniform a b u ∧ uniform a b u ≤ b := by
  unfold uniform
  constructor
  · nlinarith
  · nlinarith

theorem round1_mem (lo hi : Int) (x : Rat) (hlo : (lo : Rat) ≤ x) (hhi : x ≤ (hi : Rat)) :
    (lo : Rat) ≤ round1 x ∧ round1 x ≤ (hi : Rat) ∧ ∃ k : Int, round1 x = (k : Rat) / 10 := by
  have h1 : (10 * lo : Int) ≤ roundHalfEven (10 * x) :=
    le_roundHalfEven _ _ (by push_cast; linarith)
  have h2 : roundHalfEven (10 * x) ≤ (10 * hi : Int) :=
    roundHalfEven_le _ _ (by push_cast; linarith)
  have h1r : ((10 * lo : Int) : Rat) ≤ (roundHalfEven (10 * x) : Rat) := Int.cast_le.mpr h1
  have h2r : ((roundHalfEven (10 * x) : Int) : Rat) ≤ ((10 * hi : Int) : Rat) := Int.cast_le.mpr h2
  push_cast at h1r h2r
  refine ⟨?_, ?_, ⟨roundHalfEven (10 * x), rfl⟩⟩
  · unfold round1
    rw [le_div_iff₀ (by norm_num : (0 : Rat) < 10)]
    linarith
  · unfold round1
    rw [div_le_iff₀ (by norm_num : (0 : Rat) < 10)]
    linarith

theorem round0_mem (lo hi : Int) (x : Rat) (hlo : (lo : Rat) ≤ x) (hhi : x ≤ (hi : Rat)) :
    (lo : Rat) ≤ round0 x ∧ round0 x ≤ (hi : Rat) ∧ ∃ k : Int, round0 x = (k : Rat) := by
  have h1 := le_roundHalfEven lo x hlo
  have h2 := roundHalfEven_le hi x hhi
  exact ⟨Int.cast_le.mpr h1, Int.cast_le.mpr h2, ⟨roundHalfEven x, rfl⟩⟩

/-! ### Decoding lemmas -/

theorem decodeOne_consumes (bs : List Nat) (c n : Nat) (h : decodeOne bs = some (c, n)) :
    1 ≤ n := by
  rcases bs with _ | ⟨b, rest⟩
  · simp [decodeOne] at h
  · unfold decodeOne at h
    repeat' split at h
    all_goals simp_all
    all_goals omega

theorem pyDecodeFuel_ignore_ok : ∀ fuel (bs : List Nat), bs.length ≤ fuel →
    ∃ cs, pyDecodeFuel .ignore fuel bs = .ok cs := by
  intro fuel
  induction fuel with
  | zero =>
    intro bs h
    rcases bs with _ | ⟨b, r⟩
    · exact ⟨[], rfl⟩
    · simp at h
  | succ n ih =>
    intro bs h
    rcases bs with _ | ⟨b, r⟩
    · exact ⟨[], rfl⟩
    · rcases hdec : decodeOne (b :: r) with _ | ⟨c, k⟩
      · obtain ⟨cs, hcs⟩ := ih r (by simp [List.length_cons] at h; omega)
        exact ⟨cs, by simp [pyDecodeFuel, hdec, hcs]⟩
      · have hk := decodeOne_consumes _ _ _ hdec
        have hlen : ((b :: r).drop k).length ≤ n := by
          rw [List.length_drop]
          simp [List.length_cons] at h ⊢
          omega
        obtain ⟨cs, hcs⟩ := ih _ hlen
        exact ⟨c :: cs, by simp [pyDecodeFuel, hdec, hcs]⟩

section ClaimTheoremsTwo

attribute [local semireducible] Rat.mul Rat.inv Rat.add Rat.sub Rat.ofScientific

/-- C7: for every draw of the five underlying uniform generators,
`simulate_reading` yields a record with all five fields, each in its
declared range: PM2.5 in [5, 80] and PM10 in [10, 120] at one decimal
place, CO2 integer-valued in [400, 2000], TEMP in [0, 35] and HUM in
[25, 75] at one decimal place. -/
theorem simulate_reading_ranges (u1 u2 u3 u4 u5 : Rat)
    (h1 : 0 ≤ u1 ∧ u1 ≤ 1) (h2 : 0 ≤ u2 ∧ u2 ≤ 1) (h3 : 0 ≤ u3 ∧ u3 ≤ 1)
    (h4 : 0 ≤ u4 ∧ u4 ≤ 1) (h5 : 0 ≤ u5 ∧ u5 ≤ 1) :
    recComplete (simulate_reading u1 u2 u3 u4 u5) = true ∧
    fieldIn (simulate_reading u1 u2 u3 u4 u5).pm2_5 5 80 10 ∧
    fieldIn (simulate_reading u1 u2 u3 u4 u5).pm10 10 120 10 ∧
    fieldIn (simulate_reading u1 u2 u3 u4 u5).co2 400 2000 1 ∧
    fieldIn (simulate_reading u1 u2 u3 u4 u5).temp 0 35 10 ∧
    fieldIn (simulate_reading u1 u2 u3 u4 u5).hum 25 75 10 := by
  refine ⟨rfl, ?_, ?_, ?_, ?_, ?_⟩
  · have hu := uniform_mem 5 80 u1 (by norm_num) h1.1 h1.2
    have hr := round1_mem 5 80 _ (by exact_mod_cast hu.1) (by exact_mod_cast hu.2)
    exact ⟨_, rfl, by exact_mod_cast hr.1, by exact_mod_cast hr.2.1, hr.2.2⟩
  · have hu := uniform_mem 10 120 u2 (by norm_num) h2.1 h2.2
    have hr := round1_mem 10 120 _ (by exact_mod_cast hu.1) (by exact_mod_cast hu.2)
    exact ⟨_, rfl, by exact_mod_cast hr.1, by exact_mod_cast hr.2.1, hr.2.2⟩
  · have hu := uniform_mem 400 2000 u3 (by norm_num) h3.1 h3.2
    have hr := round0_mem 400 2000 _ (by exact_mod_cast hu.1) (by exact_mod_cast hu.2)
    obtain ⟨k, hk⟩ := hr.2.2
    exact ⟨_, rfl, by exact_mod_cast hr.1, by exact_mod_cast hr.2.1,
      ⟨k, by rw [div_one]; exact hk⟩⟩
  · have hu := uniform_mem 0 35 u4 (by norm_num) h4.1 h4.2
    have hr := round1_mem 0 35 _ (by exact_mod_cast hu.1) (by exact_mod_cast hu.2)
    exact ⟨_, rfl, by exact_mod_cast hr.1, by exact_mod_cast hr.2.1, hr.2.2⟩
  · have hu := uniform_mem 25 75 u5 (by norm_num) h5.1 h5.2
    have hr := round1_mem 25 75 _ (by exact_mod_cast hu.1) (by exact_mod_cast hu.2)
    exact ⟨_, rfl, by exact_mod_cast hr.1, by exact_mod_cast hr.2.1, hr.2.2⟩

theorem simulate_reading_ranges_witness :
    recComplete (simulate_reading (1/2) (1/3) (1/4) (1/5) (1/6)) = true ∧
    fieldIn (simulate_reading (1/2) (1/3) (1/4) (1/5) (1/6)).pm2_5 5 80 10 ∧
    fieldIn (simulate_reading (1/2) (1/3) (1/4) (1/5) (1/6)).pm10 10 120 10 ∧
    fieldIn (simulate_reading (1/2) (1/3) (1/4) (1/5) (1/6)).co2 400 2000 1 ∧
    fieldIn (simulate_reading (1/2) (1/3) (1/4) (1/5) (1/6)).temp 0 35 10 ∧
    fieldIn (simulate_reading (1/2) (1/3) (1/4) (1/5) (1/6)).hum 25 75 10 :=
  simulate_reading_ranges (1/2) (1/3) (1/4) (1/5) (1/6)
    ⟨by norm_num, by norm_num⟩ ⟨by norm_num, by norm_num⟩ ⟨by norm_num, by norm_num⟩
    ⟨by norm_num, by norm_num⟩ ⟨by norm_num, by norm_num⟩

/-- C6: when the append to the CSV log fails, the error propagates
unchanged out of the tick and out of the loop — no retry, no recovery;
the run ends there and later ticks never execute. -/
theorem log_csv_failure_fatal (i : TickIn) (is : List TickIn) (fileRows : List Row)
    (d : PartialRecord)
    (hraw : i.raw ≠ [])
    (hparse : parse_line i.raw = .ok d)
    (hcomp : recComplete d = true)
    (hfail : i.writeOk = false) :
    serialTick i fileRows = .error .ioError ∧
    runSerial (i :: is) fileRows = .error .ioError := by
  obtain ⟨o1, o2, o3, o4, o5⟩ := d
  simp only [recComplete, Bool.and_eq_true, Option.isSome_iff_exists] at hcomp
  obtain ⟨⟨⟨⟨⟨a, rfl⟩, b, rfl⟩, c, rfl⟩, t, rfl⟩, u, rfl⟩ := hcomp
  have htick : serialTick i fileRows = .error .ioError := by
    simp [serialTick, hraw, hparse, hfail, buildRow, getItem, log_csv, rowToRecord,
      evaluate_thresholds, recNonempty, bind, Except.bind, pure, Except.pure]
  exact ⟨htick, by simp [runSerial, htick]⟩

theorem log_csv_failure_fatal_witness :
    serialTick ⟨lit "2025-01-01T00:00:00", lit "PM25:10;PM10:20;CO2:500;TEMP:21;HUM:40",
        false⟩ [] = .error .ioError ∧
    runSerial [⟨lit "2025-01-01T00:00:00", lit "PM25:10;PM10:20;CO2:500;TEMP:21;HUM:40",
        false⟩] [] = .error .ioError :=
  log_csv_failure_fatal _ [] [] ⟨some 10, some 20, some 500, some 21, some 40⟩
    (by decide) (by decide) (by decide) rfl

/-- C1 (refuted by the code, which contradicts the spec's stated
behaviour): a tick whose record is non-empty but missing a key — here
the record parsed from `PM25:10;PM10:20;CO2:500;TEMP:20`, which lacks
HUM — is not skipped: the record passes the `if data:` guard, the row
construction raises `KeyError`, and the error escapes the loop, so the
run terminates instead of proceeding to the next tick. -/
theorem incomplete_record_crashes_tick :
    parse_line (lit "PM25:10;PM10:20;CO2:500;TEMP:20") =
      .ok ⟨some 10, some 20, some 500, some 20, none⟩ ∧
    recNonempty ⟨some 10, some 20, some 500, some 20, none⟩ = true ∧
    recComplete ⟨some 10, some 20, some 500, some 20, none⟩ = false ∧
    serialTick ⟨lit "2025-01-01T00:00:00", lit "PM25:10;PM10:20;CO2:500;TEMP:20", true⟩ [] =
      .error .keyError ∧
    runSerial
      [⟨lit "2025-01-01T00:00:00", lit "PM25:10;PM10:20;CO2:500;TEMP:20", true⟩,
        ⟨lit "2025-01-01T00:00:01", lit "PM25:1;PM10:2;CO2:3;TEMP:4;HUM:5", true⟩] [] =
      .error .keyError := by
  exact ⟨by decide, by decide, by decide, by decide, by decide⟩

/-- C2 (refuted by the code, which contradicts the spec's stated
behaviour): a line with a malformed numeric value does make the whole
parse fail with a `ValueError` and no partial record, but the main loop
does not treat it as "no usable data" and continue — the `ValueError`
is uncaught, so the run terminates and later ticks never execute. -/
theorem malformed_value_crashes_loop :
    parse_line (lit "PM25:abc;PM10:20;CO2:500;TEMP:20;HUM:50") = .error () ∧
    serialTick ⟨lit "2025-01-01T00:00:00", lit "PM25:abc;PM10:20;CO2:500;TEMP:20;HUM:50",
        true⟩ [] = .error .valueError ∧
    runSerial
      [⟨lit "2025-01-01T00:00:00", lit "PM25:abc;PM10:20;CO2:500;TEMP:20;HUM:50", true⟩,
        ⟨lit "2025-01-01T00:00:01", lit "PM25:1;PM10:2;CO2:3;TEMP:4;HUM:5", true⟩] [] =
      .error .valueError := by
  exact ⟨by decide, by decide, by decide⟩

/-- C8 counterexample: the decode step of the main loop uses
`errors="ignore"`, which drops invalid bytes; it does not replace them
as the claim states — on the single invalid byte `0xFF` the program
decodes to the empty string while the replacing decode yields U+FFFD. -/
theorem decode_ignore_not_replace :
    mainDecode [0xFF] = .ok [] ∧ specDecodeReplace [0xFF] = .ok [0xFFFD] ∧
    mainDecode [0xFF] ≠ specDecodeReplace [0xFF] := by
  exact ⟨rfl, rfl, by decide⟩

/-- C8 (amended): the line read from the channel is decoded
permissively with invalid bytes ignored (dropped) rather than the
decode failing; for every input byte sequence the decode step produces
a string and never raises. -/
theorem decode_ignore_total : ∀ bs : List Nat, ∃ cs, mainDecode bs = .ok cs :=
  fun bs => pyDecodeFuel_ignore_ok bs.length bs le_rfl

end ClaimTheoremsTwo
